import Mathlib

/-!
Verification of the Access-to-PostgreSQL synchronization core of
`src/index.js` (AccessScedularBackend).

The shallow embedding below models:
  * JavaScript scalar values appearing in fetched rows (`Value`);
  * rows as ordered key/value lists (`Row`), matching the ordered objects
    returned by the ODBC driver;
  * the column normalizer `normalizeColumnName` (index.js lines 97-99);
  * value serialization for the upsert statement (index.js line 139);
  * the delta/apply pass `syncDataWithPostgres` (index.js lines 115-177),
    parameterized by a failure oracle `fails : SqlOp → Bool` that models
    which `pgClient.query` calls throw;
  * the per-table migrator `migrateTable` (index.js lines 180-198);
  * the orchestrator loop over tables (index.js lines 215-217 / 253-255);
  * the scheduler start/stop state machine (index.js lines 222-225 and
    268-285).
-/

/-- A JavaScript scalar value as it appears in a fetched Access row.
`undefined` is not a stored value; a missing key surfaces as `Option.none`
through `rowGet`. -/
inductive Value where
  | vnull : Value
  | vstr : String → Value
  | vnum : Int → Value
  | vbool : Bool → Value
deriving DecidableEq, Repr

/-- A source row: the ordered own-properties of the record object. -/
abbrev Row : Type := List (String × Value)

/-- Property access `record[k]` on a row object; `none` models `undefined`. -/
def rowGet (r : Row) (k : String) : Option Value :=
  (List.find? (fun kv => decide (kv.1 = k)) r).map Prod.snd

/-- Models `Object.keys(record)[0]`.  An empty object gives `undefined`, which JS
coerces to the property name "undefined" on a subsequent access. -/
def firstKey (r : Row) : String :=
  (List.headD (List.map Prod.fst r) "undefined")

/- ---------------------------------------------------------------------
Column normalizer, index.js lines 97-99:
  column.replace(/\s+/g, "_").replace(/[^a-zA-Z0-9_]/g, "")
--------------------------------------------------------------------- -/

/-- The code points matched by JavaScript regex `\\s`: tab, LF, VT, FF, CR,
space, NBSP, Ogham space, the U+2000..U+200A spaces, line and paragraph
separators, narrow NBSP, medium mathematical space, ideographic space, BOM. -/
def jsSpaceCodes : List Nat :=
  [9, 10, 11, 12, 13, 32, 160, 0x1680,
   0x2000, 0x2001, 0x2002, 0x2003, 0x2004, 0x2005, 0x2006, 0x2007,
   0x2008, 0x2009, 0x200a, 0x2028, 0x2029, 0x202f, 0x205f, 0x3000, 0xfeff]

/-- The characters matched by JavaScript regex `\\s`. -/
def isJsSpace (c : Char) : Bool :=
  decide (c.toNat ∈ jsSpaceCodes)

/-- A character kept by the second regex: `[a-zA-Z0-9_]`. -/
def isWordChar (c : Char) : Bool :=
  c.isAlpha || c.isDigit || c == '_'

/-- Models `replace(/\s+/g, "_")` on a character list: each maximal run of
whitespace becomes a single underscore.  The flag records whether the
previous character belonged to a whitespace run. -/
def collapseWsAux : Bool → List Char → List Char
  | _, [] => []
  | prevWs, c :: rest =>
      if isJsSpace c then
        if prevWs then collapseWsAux true rest
        else '_' :: collapseWsAux true rest
      else c :: collapseWsAux false rest

def collapseWs (l : List Char) : List Char := collapseWsAux false l

/-- The column normalizer, index.js lines 97-99. -/
def normalizeColumnName (column : String) : String :=
  ⟨List.filter isWordChar (collapseWs column.data)⟩

/- ---------------------------------------------------------------------
Value serialization for the upsert statement, index.js line 139: each
value of the record maps to NULL when falsy, and otherwise to its
string form with doubled apostrophes, wrapped in apostrophes.
--------------------------------------------------------------------- -/

/-- JavaScript truthiness of a scalar value. -/
def truthy : Value → Bool
  | Value.vnull => false
  | Value.vstr s => !(decide (s = ""))
  | Value.vnum n => !(decide (n = 0))
  | Value.vbool b => b

def squote : Char := Char.ofNat 39

/-- Evaluates `value.toString()` for the values that reach it (truthiness guards
`null` from ever reaching `toString`). -/
def jsToString : Value → String
  | Value.vnull => "null"
  | Value.vstr s => s
  | Value.vnum n => toString n
  | Value.vbool b => if b then "true" else "false"

/-- Models `.replace` of every apostrophe by a doubled apostrophe. -/
def escapeQuotes (s : String) : String :=
  ⟨List.flatMap s.data (fun c => if c == squote then [squote, squote] else [c])⟩

/-- Serialization of one column value inside the generated upsert
statement (index.js line 139). -/
def serializeValue (v : Value) : String :=
  if truthy v then ⟨[squote]⟩ ++ escapeQuotes (jsToString v) ++ ⟨[squote]⟩
  else "NULL"

/-- The VALUES fragment of the upsert statement for one record:
`Object.values(record).map(...).join(", ")`. -/
def upsertValuesSql (record : Row) : String :=
  String.intercalate ", " (List.map (fun kv => serializeValue kv.2) record)

/- ---------------------------------------------------------------------
The delta/apply pass, index.js lines 115-177.
--------------------------------------------------------------------- -/

/-- A row-level SQL statement issued against the destination store. -/
inductive SqlOp where
  | del : String → Option Value → SqlOp
  | upsert : String → Row → SqlOp
deriving DecidableEq, Repr

/-- The failure oracle under which every query succeeds. -/
def noFail : SqlOp → Bool := fun _ => false

/-- Lookup in the `previousKeys` map of index.js line 125.  A JS `Map`
built from a list of key/value pairs keeps the last entry for a
duplicated key, hence `getLast?`. -/
def mapGet (previousRecords : List Row) (idCol : String) (k : Option Value) :
    Option Row :=
  List.getLast?
    (List.filter (fun rec => decide (rowGet rec idCol = k)) previousRecords)

/-- The change test of index.js lines 147-153: some own key of `record`
maps to a different value in `previousRecord` (strict `!==`; a missing
key reads as `undefined`, i.e. `none`). -/
def hasChanged (record previousRecord : Row) : Bool :=
  List.any record
    (fun kv => !(decide (rowGet record kv.1 = rowGet previousRecord kv.1)))

/-- How one current record is classified by index.js lines 144-162:
an insert when its first-column value is absent from the previous key
map, an update when present with some differing column, unchanged
otherwise. -/
inductive RowClass where
  | ins : RowClass
  | upd : RowClass
  | unchanged : RowClass
deriving DecidableEq, Repr

/-- The branch conditions of index.js lines 144-162 as a classification. -/
def classifyRecord (previousRecords : List Row) (idCol : String)
    (record : Row) : RowClass :=
  match mapGet previousRecords idCol (rowGet record (firstKey record)) with
  | some previousRecord =>
      if hasChanged record previousRecord then RowClass.upd
      else RowClass.unchanged
  | none => RowClass.ins

/-- Outcome of the insert/update loop: statements issued in order (a
failing one included), the insert and update counts of `changeLog`, and
whether a query threw. -/
structure ProcResult where
  ops : List SqlOp
  inserts : Nat
  updates : Nat
  errored : Bool
deriving DecidableEq, Repr

/-- The insert/update loop of index.js lines 138-163.  The enclosing
try/catch of lines 123-176 wraps the whole loop, so the loop stops at
the first failing query. -/
def processRecords (fails : SqlOp → Bool) (tableName : String)
    (previousRecords : List Row) (idCol : String) : List Row → ProcResult
  | [] => ⟨[], 0, 0, false⟩
  | record :: rest =>
      match mapGet previousRecords idCol (rowGet record (firstKey record)) with
      | some previousRecord =>
          if hasChanged record previousRecord then
            let op := SqlOp.upsert tableName record
            if fails op then ⟨[op], 0, 1, true⟩
            else
              let r := processRecords fails tableName previousRecords idCol rest
              ⟨op :: r.ops, r.inserts, r.updates + 1, r.errored⟩
          else processRecords fails tableName previousRecords idCol rest
      | none =>
          let op := SqlOp.upsert tableName record
          if fails op then ⟨[op], 1, 0, true⟩
          else
            let r := processRecords fails tableName previousRecords idCol rest
            ⟨op :: r.ops, r.inserts + 1, r.updates, r.errored⟩

/-- The delete loop of index.js lines 132-135, stopping at the first
failing query for the same try/catch reason. -/
def runDeletes (fails : SqlOp → Bool) (tableName idCol : String) :
    List Row → List SqlOp × Bool
  | [] => ([], false)
  | rec :: rest =>
      let op := SqlOp.del tableName (rowGet rec idCol)
      if fails op then ([op], true)
      else
        let r := runDeletes fails tableName idCol rest
        (op :: r.1, r.2)

/-- Result of one `syncDataWithPostgres` call: the statements actually
issued in order, the `changeLog` counters (`deletions` is set on line
130 before any delete executes), and whether the catch on line 174
fired (the error never escapes to the caller). -/
structure SyncResult where
  attempted : List SqlOp
  inserts : Nat
  updates : Nat
  deletions : Nat
  errored : Bool
deriving DecidableEq, Repr

/-- The sync pass of index.js lines 115-177.  Line 116 returns
immediately on an empty `currentRecords`; otherwise the identity column
is the first key of the first current record, deletions are the
previous records whose identity value is absent from the current key
set, and each current record is upserted according to its
classification. -/
def syncDataWithPostgres (fails : SqlOp → Bool) (tableName : String)
    (previousRecords currentRecords : List Row) : SyncResult :=
  match currentRecords with
  | [] => ⟨[], 0, 0, 0, false⟩
  | c0 :: _ =>
      let idCol := firstKey c0
      let currentKeys := List.map (fun rec => rowGet rec idCol) currentRecords
      let recordsToDelete :=
        List.filter
          (fun rec => !(List.contains currentKeys (rowGet rec idCol)))
          previousRecords
      let deletions := recordsToDelete.length
      let d := runDeletes fails tableName idCol recordsToDelete
      if d.2 then ⟨d.1, 0, 0, deletions, true⟩
      else
        let p := processRecords fails tableName previousRecords idCol currentRecords
        ⟨d.1 ++ p.ops, p.inserts, p.updates, deletions, p.errored⟩

/- ---------------------------------------------------------------------
The per-table migrator, index.js lines 180-198, and the orchestrator
loop, index.js lines 215-217 and 253-255.
--------------------------------------------------------------------- -/

/-- JSON string escaping of the two characters that need it here. -/
def escapeJson (s : String) : String :=
  ⟨List.flatMap s.data (fun c =>
    if c == '"' then ['\\', '"']
    else if c == '\\' then ['\\', '\\']
    else [c])⟩

/-- Models `JSON.stringify` of one scalar value. -/
def stringifyValue : Value → String
  | Value.vnull => "null"
  | Value.vstr s => "\"" ++ escapeJson s ++ "\""
  | Value.vnum n => toString n
  | Value.vbool b => if b then "true" else "false"

/-- Models `JSON.stringify` of one record object. -/
def stringifyRow (r : Row) : String :=
  "\x7b" ++
    String.intercalate ","
      (List.map
        (fun kv => "\"" ++ escapeJson kv.1 ++ "\":" ++ stringifyValue kv.2) r)
    ++ "\x7d"

/-- Models `JSON.stringify` of an array of records. -/
def stringifyRows (l : List Row) : String :=
  "[" ++ String.intercalate "," (List.map stringifyRow l) ++ "]"

/-- The `previousStates` snapshot store (index.js line 32). -/
abbrev States : Type := List (String × List Row)

/-- Read of `previousStates[tableName] || []`. -/
def statesGet (ps : States) (tableName : String) : List Row :=
  (Option.map Prod.snd
    (List.find? (fun p => decide (p.1 = tableName)) ps)).getD []

/-- Assignment `previousStates[tableName] = v`. -/
def statesSet (ps : States) (tableName : String) (v : List Row) : States :=
  (tableName, v) :: List.filter (fun p => !(decide (p.1 = tableName))) ps

/-- Outcome of `migrateTable`: the snapshot store afterwards, the
row-level statements attempted against the destination, and whether the
call threw.  The only throwing path is `ensurePostgresTable` reading
`Object.keys(currentRecords[0])` when the fetched snapshot is empty
(line 103 sits outside the try block of that function); the `CREATE TABLE`
query itself and everything inside `syncDataWithPostgres` are caught
internally. -/
structure MigrateResult where
  states : States
  wrote : List SqlOp
  err : Bool
deriving Repr

/-- The migrator of index.js lines 180-198, taking the freshly fetched
snapshot as input (the fetch is external I/O and already yields `[]` on
failure or for skipped `~` tables).  `hasChanges` is the length test
plus the `JSON.stringify` comparison of lines 184-186; both the sync
path and the no-change path end by storing the fetched snapshot
(line 197), while the throwing path stores nothing. -/
def migrateTable (fails : SqlOp → Bool) (ps : States) (tableName : String)
    (currentRecords : List Row) : MigrateResult :=
  let previousRecords := statesGet ps tableName
  let hasChanges :=
    !(decide (currentRecords.length = previousRecords.length)) ||
    !(decide (stringifyRows currentRecords = stringifyRows previousRecords))
  if hasChanges then
    match currentRecords with
    | [] => ⟨ps, [], true⟩
    | _ :: _ =>
        let r := syncDataWithPostgres fails tableName previousRecords currentRecords
        ⟨statesSet ps tableName currentRecords, r.attempted, false⟩
  else ⟨statesSet ps tableName currentRecords, [], false⟩

/-- Outcome of the per-table orchestrator loop: the final store, the
tables for which `migrateTable` was invoked, and whether an exception
aborted the loop (the loop body has no per-table catch). -/
structure LoopResult where
  states : States
  invoked : List String
  aborted : Bool
deriving Repr

/-- The orchestrator loop of index.js lines 215-217 (and 253-255): each
table is paired with its fetched snapshot; a thrown `migrateTable`
aborts the remainder of the loop. -/
def runMigrateLoop (fails : SqlOp → Bool) (ps : States) :
    List (String × List Row) → LoopResult
  | [] => ⟨ps, [], false⟩
  | (tableName, rows) :: rest =>
      let r := migrateTable fails ps tableName rows
      if r.err then ⟨r.states, [tableName], true⟩
      else
        let l := runMigrateLoop fails r.states rest
        ⟨l.states, tableName :: l.invoked, l.aborted⟩

/- ---------------------------------------------------------------------
The scheduler state machine, index.js lines 15-16, 222-225, 235-265 and
268-285.
--------------------------------------------------------------------- -/

/-- The scheduler globals: `schedulerRunning`, the `cronJob` handle, the
number of live timers created by `cron.schedule` and not yet stopped,
and the `previousStates` store cleared on stop. -/
structure SchedState where
  schedulerRunning : Bool
  cronJob : Option Nat
  activeTimers : Nat
  previousStates : States
deriving DecidableEq, Repr

/-- The process-start state (index.js lines 15-16 and 32). -/
def initSched : SchedState := ⟨false, none, 0, []⟩

/-- The scheduler-start step at the end of a successful manual
migration, index.js lines 222-225 plus `scheduleMigration` storing the
new timer handle (line 236): a no-op when `schedulerRunning` is already
set. -/
def startSchedulerIfIdle (timerId : Nat) (s : SchedState) : SchedState :=
  if s.schedulerRunning then s
  else
    { schedulerRunning := true
      cronJob := some timerId
      activeTimers := s.activeTimers + 1
      previousStates := s.previousStates }

def noSchedulerMsg : String := "✅ No scheduler is running!"

def stoppedMsg : String := "✅ Scheduler stopped!"

/-- The stop endpoint of index.js lines 268-285: when a job is live it
is stopped and the state cleared; otherwise nothing changes.  The pair
carries the HTTP status code and the response message — both branches
answer 200. -/
def stopScheduler (s : SchedState) : SchedState × Nat × String :=
  match s.cronJob with
  | some _ =>
      ({ schedulerRunning := false
         cronJob := none
         activeTimers := s.activeTimers - 1
         previousStates := [] },
       200, stoppedMsg)
  | none => (s, 200, noSchedulerMsg)

/- ---------------------------------------------------------------------
Lemmas about the column normalizer.
--------------------------------------------------------------------- -/

/-- A kept character is never whitespace: word codes lie in [48,122],
whitespace codes do not. -/
lemma wordChar_code (c : Char) (h : isWordChar c = true) :
    48 ≤ c.toNat ∧ c.toNat ≤ 122 := by
  simp only [isWordChar, Char.isAlpha, Char.isUpper, Char.isLower, Char.isDigit,
    ge_iff_le, Bool.or_eq_true, Bool.and_eq_true, decide_eq_true_eq, beq_iff_eq] at h
  rcases h with ((⟨h1, h2⟩ | ⟨h1, h2⟩) | ⟨h1, h2⟩) | h
  · exact ⟨Nat.le_trans (by norm_num) (show (65 : UInt32).toNat ≤ c.val.toNat from h1),
      Nat.le_trans (show c.val.toNat ≤ (90 : UInt32).toNat from h2) (by norm_num)⟩
  · exact ⟨Nat.le_trans (by norm_num) (show (97 : UInt32).toNat ≤ c.val.toNat from h1),
      Nat.le_trans (show c.val.toNat ≤ (122 : UInt32).toNat from h2) (by norm_num)⟩
  · exact ⟨show (48 : UInt32).toNat ≤ c.val.toNat from h1,
      Nat.le_trans (show c.val.toNat ≤ (57 : UInt32).toNat from h2) (by norm_num)⟩
  · subst h
    decide

lemma wordChar_not_space (c : Char) (h : isWordChar c = true) :
    isJsSpace c = false := by
  obtain ⟨h1, h2⟩ := wordChar_code c h
  simp only [isJsSpace, jsSpaceCodes, List.mem_cons, List.not_mem_nil,
    decide_eq_false_iff_not, or_false]
  omega

/-- Collapsing whitespace leaves a whitespace-free list unchanged. -/
lemma collapseWsAux_of_no_space :
    ∀ (l : List Char), (∀ c ∈ l, isJsSpace c = false) → ∀ b, collapseWsAux b l = l := by
  intro l
  induction l with
  | nil => intro _ b; rfl
  | cons c rest ih =>
      intro hl b
      have hc : isJsSpace c = false := hl c (List.mem_cons_self c rest)
      simp only [collapseWsAux, hc, Bool.false_eq_true, if_false]
      rw [ih (fun x hx => hl x (List.mem_cons_of_mem c hx)) false]

/-- A non-whitespace character of the input survives whitespace collapse. -/
lemma mem_collapseWsAux_of_mem (c : Char) (hc : isJsSpace c = false) :
    ∀ (l : List Char) (b : Bool), c ∈ l → c ∈ collapseWsAux b l := by
  intro l
  induction l with
  | nil => intro b h; cases h
  | cons d rest ih =>
      intro b h
      by_cases hd : isJsSpace d = true
      · have hcr : c ∈ rest := by
          rcases List.mem_cons.mp h with rfl | hr
          · rw [hd] at hc; cases hc
          · exact hr
        simp only [collapseWsAux, hd, if_true]
        cases b with
        | true => exact ih true hcr
        | false => exact List.mem_cons_of_mem _ (ih true hcr)
      · have hd' : isJsSpace d = false := by simpa using hd
        simp only [collapseWsAux, hd', Bool.false_eq_true, if_false]
        rcases List.mem_cons.mp h with rfl | hr
        · exact List.mem_cons_self _ _
        · exact List.mem_cons_of_mem _ (ih false hr)

/-- An input containing whitespace yields an underscore in the collapse. -/
lemma underscore_mem_collapseWs :
    ∀ (l : List Char), (∃ c ∈ l, isJsSpace c = true) → '_' ∈ collapseWsAux false l := by
  intro l
  induction l with
  | nil =>
      intro h
      obtain ⟨c, hc, _⟩ := h
      cases hc
  | cons d rest ih =>
      intro h
      by_cases hd : isJsSpace d = true
      · simp only [collapseWsAux, hd, if_true]
        exact List.mem_cons_self _ _
      · have hd' : isJsSpace d = false := by simpa using hd
        simp only [collapseWsAux, hd', Bool.false_eq_true, if_false]
        obtain ⟨c, hc, hcs⟩ := h
        have hcr : c ∈ rest := by
          rcases List.mem_cons.mp hc with rfl | hr
          · rw [hcs] at hd'; cases hd'
          · exact hr
        exact List.mem_cons_of_mem _ (ih ⟨c, hcr, hcs⟩)

/-- C8: the column normalizer is idempotent: normalizing an already
normalized column name returns it unchanged. -/
theorem normalizeColumnName_idempotent :
    ∀ s : String, normalizeColumnName (normalizeColumnName s) = normalizeColumnName s := by
  intro s
  show String.mk (List.filter isWordChar
      (collapseWs (String.mk (List.filter isWordChar (collapseWs s.data))).data))
    = String.mk (List.filter isWordChar (collapseWs s.data))
  have hdata : (String.mk (List.filter isWordChar (collapseWs s.data))).data
      = List.filter isWordChar (collapseWs s.data) := rfl
  rw [hdata]
  have hns : ∀ c ∈ List.filter isWordChar (collapseWs s.data), isJsSpace c = false :=
    fun c hc => wordChar_not_space c (List.mem_filter.mp hc).2
  have h1 : collapseWs (List.filter isWordChar (collapseWs s.data))
      = List.filter isWordChar (collapseWs s.data) :=
    collapseWsAux_of_no_space _ hns false
  rw [h1]
  rw [List.filter_eq_self.mpr (fun a ha => (List.mem_filter.mp ha).2)]

/-- C7 (counterexample): an input with no alphanumeric, underscore or
whitespace character normalizes to the empty string, so the normalizer
does not always return a non-empty identifier. -/
theorem normalizeColumnName_dot_empty : normalizeColumnName "." = "" := rfl

/-- C7 (amended): the normalizer is deterministic, and it returns a
non-empty string whenever its input contains at least one alphanumeric,
underscore or whitespace character. -/
theorem normalizeColumnName_stable_nonempty :
    (∀ s t : String, s = t → normalizeColumnName s = normalizeColumnName t)
  ∧ (∀ s : String, (∃ c ∈ s.data, isWordChar c = true ∨ isJsSpace c = true) →
      normalizeColumnName s ≠ "") := by
  constructor
  · intro s t h
    rw [h]
  · intro s h heq
    have hdata : List.filter isWordChar (collapseWs s.data) = [] := by
      have := congrArg String.data heq
      exact this
    obtain ⟨c, hc, hcase⟩ := h
    rcases hcase with hw | hs
    · have hmem : c ∈ collapseWs s.data :=
        mem_collapseWsAux_of_mem c (wordChar_not_space c hw) s.data false hc
      have : c ∈ List.filter isWordChar (collapseWs s.data) :=
        List.mem_filter.mpr ⟨hmem, hw⟩
      rw [hdata] at this
      cases this
    · have hmem : '_' ∈ collapseWs s.data :=
        underscore_mem_collapseWs s.data ⟨c, hc, hs⟩
      have : '_' ∈ List.filter isWordChar (collapseWs s.data) :=
        List.mem_filter.mpr ⟨hmem, by decide⟩
      rw [hdata] at this
      cases this

/-- C7 (witness): a concrete input with a letter normalizes to a
non-empty identifier. -/
theorem normalizeColumnName_witness : normalizeColumnName "ab" ≠ "" :=
  normalizeColumnName_stable_nonempty.2 "ab" ⟨'a', by decide, Or.inl (by decide)⟩

/- ---------------------------------------------------------------------
Serialization, scheduler and empty-snapshot theorems.
--------------------------------------------------------------------- -/

/-- A quoted serialization is never the bare keyword NULL: it starts
with an apostrophe. -/
lemma quoted_ne_null (x : String) :
    (String.mk [squote] ++ x ++ String.mk [squote]) ≠ "NULL" := by
  intro h
  have hd := congrArg String.data h
  rw [String.data_append, String.data_append] at hd
  have h2 : squote :: (x.data ++ [squote]) = ['N', 'U', 'L', 'L'] := by
    simpa using hd
  have h3 : squote = 'N' := ((List.cons.injEq _ _ _ _).mp h2).1
  exact absurd h3 (by decide)

/-- C10: a column value is serialized as SQL NULL in the generated
upsert statement exactly when it is JavaScript-falsy — null, the empty
string, the number 0, or false — and every truthy value is serialized
as quoted escaped text. -/
theorem serializeValue_falsy_null :
    ∀ v : Value,
      (serializeValue v = "NULL" ↔
        (v = Value.vnull ∨ v = Value.vstr "" ∨ v = Value.vnum 0 ∨ v = Value.vbool false))
    ∧ (truthy v = true →
        serializeValue v =
          String.mk [squote] ++ escapeQuotes (jsToString v) ++ String.mk [squote]) := by
  intro v
  constructor
  · constructor
    · intro h
      by_cases ht : truthy v = true
      · exfalso
        apply quoted_ne_null (escapeQuotes (jsToString v))
        rw [← h]
        simp [serializeValue, ht]
      · cases v with
        | vnull => exact Or.inl rfl
        | vstr s =>
            refine Or.inr (Or.inl ?_)
            have hs : s = "" := by
              by_contra hs
              exact ht (by simp [truthy, hs])
            rw [hs]
        | vnum n =>
            refine Or.inr (Or.inr (Or.inl ?_))
            have hn : n = 0 := by
              by_contra hn
              exact ht (by simp [truthy, hn])
            rw [hn]
        | vbool b =>
            refine Or.inr (Or.inr (Or.inr ?_))
            cases b with
            | false => rfl
            | true => exact absurd rfl ht
    · intro h
      rcases h with rfl | rfl | rfl | rfl <;> rfl
  · intro ht
    simp [serializeValue, ht]

/-- C10 (witness): a concrete truthy value is serialized as quoted text. -/
theorem serializeValue_witness :
    serializeValue (Value.vnum 7) =
      String.mk [squote] ++ escapeQuotes (jsToString (Value.vnum 7)) ++ String.mk [squote] :=
  (serializeValue_falsy_null (Value.vnum 7)).2 (by decide)

/-- C9: starting the scheduler is idempotent — a second start request
while it is running changes nothing, and exactly one timer is live
after a double start from the initial state — and stopping an idle
scheduler answers 200 with the no-op message and leaves the state
untouched. -/
theorem scheduler_start_stop_idempotent :
    ∀ id1 id2 : Nat,
      (startSchedulerIfIdle id2 (startSchedulerIfIdle id1 initSched)).activeTimers = 1
    ∧ (∀ s : SchedState,
        startSchedulerIfIdle id2 (startSchedulerIfIdle id1 s) = startSchedulerIfIdle id1 s)
    ∧ (∀ s : SchedState, s.cronJob = none → stopScheduler s = (s, 200, noSchedulerMsg)) := by
  intro id1 id2
  refine ⟨rfl, ?_, ?_⟩
  · intro s
    by_cases h : s.schedulerRunning = true
    · simp [startSchedulerIfIdle, h]
    · simp [startSchedulerIfIdle, h]
  · intro s h
    unfold stopScheduler
    rw [h]

/-- C9 (witness): stopping from the initial idle state is a no-op 200. -/
theorem scheduler_stop_idle_witness :
    stopScheduler initSched = (initSched, 200, noSchedulerMsg) :=
  (scheduler_start_stop_idempotent 0 1).2.2 initSched rfl

/-- Sample rows shared by the concrete evaluations below. -/
def rowA1 : Row := [("id", Value.vstr "1"), ("name", Value.vstr "A")]

def rowB1 : Row := [("id", Value.vstr "1"), ("name", Value.vstr "B")]

def rowC2 : Row := [("id", Value.vstr "2"), ("name", Value.vstr "C")]

def rowK1 : Row := [("id", Value.vstr "1")]

def rowK2 : Row := [("id", Value.vstr "2")]

/-- A snapshot store that already knows one row of table t. -/
def c1States : States := [("t", [rowA1])]

/-- C1 (evaluation at the failing input): with a non-empty previous
snapshot and an empty freshly fetched snapshot, the sync applier
returns at once and issues no statement at all — in particular no
delete — and `migrateTable` throws in `ensurePostgresTable` (reading
`Object.keys` of the undefined sample record) before storing anything. -/
theorem emptySnapshot_no_deletes :
    (syncDataWithPostgres noFail "t" [rowA1] []).attempted = []
  ∧ (syncDataWithPostgres noFail "t" [rowA1] []).deletions = 0
  ∧ (migrateTable noFail c1States "t" []).wrote = []
  ∧ (migrateTable noFail c1States "t" []).err = true
  ∧ (migrateTable noFail c1States "t" []).states = c1States :=
  ⟨rfl, rfl, rfl, rfl, rfl⟩

/- ---------------------------------------------------------------------
Lemmas about the delete and insert/update loops.
--------------------------------------------------------------------- -/

/-- Without failures the delete loop issues exactly one delete per
record to delete, in order. -/
lemma runDeletes_noFail (tableName idCol : String) :
    ∀ l : List Row,
      runDeletes noFail tableName idCol l
        = (List.map (fun rec => SqlOp.del tableName (rowGet rec idCol)) l, false) := by
  intro l
  induction l with
  | nil => rfl
  | cons rec rest ih =>
      simp only [runDeletes, noFail, List.map_cons]
      rw [ih]
      simp

/-- Without failures the insert/update loop issues exactly the upserts
of the records classified as inserts or updates, in order, and counts
each class. -/
lemma processRecords_noFail (tableName : String) (previousRecords : List Row)
    (idCol : String) :
    ∀ currentRecords : List Row,
      processRecords noFail tableName previousRecords idCol currentRecords
        = ⟨List.map (SqlOp.upsert tableName)
             (List.filter
               (fun r => !(decide (classifyRecord previousRecords idCol r = RowClass.unchanged)))
               currentRecords),
           List.countP
             (fun r => decide (classifyRecord previousRecords idCol r = RowClass.ins))
             currentRecords,
           List.countP
             (fun r => decide (classifyRecord previousRecords idCol r = RowClass.upd))
             currentRecords,
           false⟩ := by
  intro currentRecords
  induction currentRecords with
  | nil => rfl
  | cons record rest ih =>
      rcases hm : mapGet previousRecords idCol (rowGet record (firstKey record)) with _ | previousRecord
      · simp only [processRecords, hm, noFail, ih, List.filter_cons, List.countP_cons,
          classifyRecord]
        simp
      · rcases hch : hasChanged record previousRecord with _ | _
        · simp only [processRecords, hm, hch, noFail, ih, List.filter_cons, List.countP_cons,
            classifyRecord]
          simp
        · simp only [processRecords, hm, hch, noFail, ih, List.filter_cons, List.countP_cons,
            classifyRecord]
          simp

/-- C2: in a failure-free pass over a non-empty current snapshot, a
current row receives an upsert exactly when its first-column value is
absent from the previous key map (an insert) or present with some
strictly differing column value (an update); a row equal to its match
in every column causes no destination write, and the insert and update
counters count exactly the rows of each class. -/
theorem syncRow_classification (previousRecords currentRecords : List Row)
    (tableName : String) (record : Row) (h : record ∈ currentRecords) :
    (SqlOp.upsert tableName record ∈
        (syncDataWithPostgres noFail tableName previousRecords currentRecords).attempted
      ↔ classifyRecord previousRecords (firstKey (currentRecords.headD [])) record
          ≠ RowClass.unchanged)
  ∧ (syncDataWithPostgres noFail tableName previousRecords currentRecords).inserts
      = List.countP
          (fun r => decide (classifyRecord previousRecords
              (firstKey (currentRecords.headD [])) r = RowClass.ins))
          currentRecords
  ∧ (syncDataWithPostgres noFail tableName previousRecords currentRecords).updates
      = List.countP
          (fun r => decide (classifyRecord previousRecords
              (firstKey (currentRecords.headD [])) r = RowClass.upd))
          currentRecords := by
  cases currentRecords with
  | nil => cases h
  | cons c0 rest =>
      simp only [syncDataWithPostgres, runDeletes_noFail, processRecords_noFail,
        List.headD_cons]
      refine ⟨?_, rfl, rfl⟩
      constructor
      · intro hmem
        rcases List.mem_append.mp hmem with hdel | hup
        · exfalso
          obtain ⟨rec, _, heq⟩ := List.mem_map.mp hdel
          cases heq
        · obtain ⟨r, hr, heq⟩ := List.mem_map.mp hup
          have : r = record := by
            have := (SqlOp.upsert.injEq _ _ _ _).mp heq
            exact this.2
          subst this
          have hp := (List.mem_filter.mp hr).2
          simpa using hp
      · intro hcl
        apply List.mem_append.mpr
        right
        apply List.mem_map.mpr
        refine ⟨record, List.mem_filter.mpr ⟨h, ?_⟩, rfl⟩
        simpa using hcl

/-- Prefix helper: every element of `dropLast` of a list satisfying `p`
except possibly the last also satisfies it after consing a `p`-element. -/
lemma all_dropLast_cons (p : SqlOp → Bool) (a : SqlOp) (l : List SqlOp)
    (h1 : p a = true) (h2 : List.all (List.dropLast l) p = true) :
    List.all (List.dropLast (a :: l)) p = true := by
  cases l with
  | nil => rfl
  | cons b m =>
      rw [List.dropLast_cons₂]
      simp only [List.all_cons, h1, Bool.true_and]
      exact h2

/-- All elements of a list satisfy `p` once its `dropLast` does. -/
lemma all_dropLast_of_all (p : SqlOp → Bool) (l : List SqlOp)
    (h : List.all l p = true) : List.all (List.dropLast l) p = true := by
  rw [List.all_eq_true] at h ⊢
  exact fun x hx => h x ((List.dropLast_sublist l).subset hx)

/-- The delete loop stops at its first failing query: every attempted
delete before the last succeeded, and an error was caught iff some
attempted query failed. -/
lemma runDeletes_stop (fails : SqlOp → Bool) (tableName idCol : String) :
    ∀ l : List Row,
      List.all (List.dropLast (runDeletes fails tableName idCol l).1)
          (fun op => !(fails op)) = true
    ∧ (runDeletes fails tableName idCol l).2
        = List.any (runDeletes fails tableName idCol l).1 fails := by
  intro l
  induction l with
  | nil => exact ⟨rfl, rfl⟩
  | cons rec rest ih =>
      rcases hf : fails (SqlOp.del tableName (rowGet rec idCol)) with _ | _
      · simp only [runDeletes, hf, Bool.false_eq_true, if_false]
        constructor
        · exact all_dropLast_cons _ _ _ (by simp [hf]) ih.1
        · simp only [List.any_cons, hf, Bool.false_or]
          exact ih.2
      · simp only [runDeletes, hf, if_true]
        constructor
        · rfl
        · simp [hf]

/-- The insert/update loop stops at its first failing query, with the
same reading as `runDeletes_stop`. -/
lemma processRecords_stop (fails : SqlOp → Bool) (tableName : String)
    (previousRecords : List Row) (idCol : String) :
    ∀ currentRecords : List Row,
      List.all
          (List.dropLast
            (processRecords fails tableName previousRecords idCol currentRecords).ops)
          (fun op => !(fails op)) = true
    ∧ (processRecords fails tableName previousRecords idCol currentRecords).errored
        = List.any (processRecords fails tableName previousRecords idCol currentRecords).ops
            fails := by
  intro currentRecords
  induction currentRecords with
  | nil => exact ⟨rfl, rfl⟩
  | cons record rest ih =>
      rcases hm : mapGet previousRecords idCol (rowGet record (firstKey record))
        with _ | previousRecord
      · rcases hf : fails (SqlOp.upsert tableName record) with _ | _
        · simp only [processRecords, hm, hf, Bool.false_eq_true, if_false]
          exact ⟨all_dropLast_cons _ _ _ (by simp [hf]) ih.1, by
            simp only [List.any_cons, hf, Bool.false_or]; exact ih.2⟩
        · simp only [processRecords, hm, hf, if_true]
          exact ⟨rfl, by simp [hf]⟩
      · rcases hch : hasChanged record previousRecord with _ | _
        · simp only [processRecords, hm, hch, Bool.false_eq_true, if_false]
          exact ih
        · rcases hf : fails (SqlOp.upsert tableName record) with _ | _
          · simp only [processRecords, hm, hch, hf, Bool.false_eq_true, if_false, if_true]
            exact ⟨all_dropLast_cons _ _ _ (by simp [hf]) ih.1, by
              simp only [List.any_cons, hf, Bool.false_or]; exact ih.2⟩
          · simp only [processRecords, hm, hch, hf, if_true]
            exact ⟨rfl, by simp [hf]⟩

/-- C3 (amended): the whole-batch try/catch makes the applier stop at
the first failing statement — every attempted statement before the last
succeeded — and the error is caught at table level (it surfaces only as
the `errored` flag, which is set iff some attempted statement failed). -/
theorem syncBatch_stops_at_failure (fails : SqlOp → Bool) (tableName : String)
    (previousRecords currentRecords : List Row) :
    List.all
        (List.dropLast
          (syncDataWithPostgres fails tableName previousRecords currentRecords).attempted)
        (fun op => !(fails op)) = true
    ∧ (syncDataWithPostgres fails tableName previousRecords currentRecords).errored
        = List.any
            (syncDataWithPostgres fails tableName previousRecords currentRecords).attempted
            fails := by
  cases currentRecords with
  | nil => exact ⟨rfl, rfl⟩
  | cons c0 rest =>
      simp only [syncDataWithPostgres]
      rcases hd : (runDeletes fails tableName (firstKey c0)
          (List.filter
            (fun rec =>
              !(List.contains
                  (List.map (fun rec => rowGet rec (firstKey c0)) (c0 :: rest))
                  (rowGet rec (firstKey c0))))
            previousRecords)) with ⟨delOps, delErr⟩
      have hds := runDeletes_stop fails tableName (firstKey c0)
        (List.filter
          (fun rec =>
            !(List.contains
                (List.map (fun rec => rowGet rec (firstKey c0)) (c0 :: rest))
                (rowGet rec (firstKey c0))))
          previousRecords)
      rw [hd] at hds
      rcases delErr with _ | _
      · simp only [Bool.false_eq_true, if_false]
        have hps := processRecords_stop fails tableName previousRecords (firstKey c0)
          (c0 :: rest)
        constructor
        · have hdall : List.all delOps (fun op => !(fails op)) = true := by
            rw [List.all_eq_true]
            intro x hx
            have : List.any delOps fails = false := by
              have := hds.2
              simp only at this
              exact this.symm
            rw [List.any_eq_false] at this
            simpa using this x hx
          cases hops : (processRecords fails tableName previousRecords (firstKey c0)
              (c0 :: rest)).ops with
          | nil =>
              simp only [hops, List.append_nil]
              exact all_dropLast_of_all _ _ hdall
          | cons o os =>
              rw [List.dropLast_append_of_ne_nil delOps (List.cons_ne_nil o os)]
              rw [List.all_append]
              have hp1 := hps.1
              rw [hops] at hp1
              rw [hdall, hp1]
              rfl
        · simp only [List.any_append]
          have : List.any delOps fails = false := by
            have := hds.2
            simp only at this
            exact this.symm
          rw [this, Bool.false_or]
          exact hps.2
      · simp only [if_true]
        exact hds

/-- A failure oracle that fails exactly the upsert of the first sample
row. -/
def failsRow1 : SqlOp → Bool := fun op => decide (op = SqlOp.upsert "t" rowK1)

/-- C3 (counterexample): when the first row of a two-row batch fails,
the second row — whose own query would have succeeded — is never
attempted: the whole-batch catch aborts the remainder of the batch. -/
theorem syncBatch_abort_counterexample :
    (syncDataWithPostgres failsRow1 "t" [] [rowK1, rowK2]).attempted
        = [SqlOp.upsert "t" rowK1]
  ∧ failsRow1 (SqlOp.upsert "t" rowK2) = false
  ∧ (syncDataWithPostgres failsRow1 "t" [] [rowK1, rowK2]).errored = true := by
  refine ⟨?_, ?_, ?_⟩ <;> decide

/-- A `migrateTable` call over a non-empty fetched snapshot never
throws: the only throwing path needs the undefined sample record of an
empty snapshot. -/
lemma migrateTable_ne_nil_no_err (fails : SqlOp → Bool) (ps : States)
    (tableName : String) (currentRecords : List Row)
    (h : currentRecords ≠ []) :
    (migrateTable fails ps tableName currentRecords).err = false := by
  cases currentRecords with
  | nil => exact absurd rfl h
  | cons c0 rest =>
      unfold migrateTable
      rcases hch : (!(decide ((c0 :: rest).length = (statesGet ps tableName).length)) ||
          !(decide (stringifyRows (c0 :: rest) = stringifyRows (statesGet ps tableName))))
        with _ | _
      · simp only [hch, Bool.false_eq_true, if_false]
      · simp only [hch, if_true]

/-- C4 (amended): as long as no table hits the throwing path (an empty
fetched snapshot differing from the stored one), the orchestrator loop
invokes the migrator for every table in order — even when arbitrarily
many row-level queries fail, since those failures are swallowed inside
the sync pass. -/
theorem migrateLoop_all_invoked (fails : SqlOp → Bool) :
    ∀ (tables : List (String × List Row)) (ps : States),
      (∀ p ∈ tables, p.2 ≠ ([] : List Row)) →
      (runMigrateLoop fails ps tables).invoked = List.map Prod.fst tables
    ∧ (runMigrateLoop fails ps tables).aborted = false := by
  intro tables
  induction tables with
  | nil => exact fun ps _ => ⟨rfl, rfl⟩
  | cons p rest ih =>
      intro ps h
      rcases p with ⟨tableName, rows⟩
      have hne : rows ≠ [] := h _ (List.mem_cons_self _ _)
      have herr := migrateTable_ne_nil_no_err fails ps tableName rows hne
      simp only [runMigrateLoop, herr, Bool.false_eq_true, if_false, List.map_cons]
      have hrest := ih (migrateTable fails ps tableName rows).states
        (fun q hq => h q (List.mem_cons_of_mem _ hq))
      exact ⟨by rw [hrest.1], hrest.2⟩

/-- C4 (witness): a concrete two-table pass with failing row queries
still invokes the migrator for both tables. -/
theorem migrateLoop_all_invoked_witness :
    (runMigrateLoop failsRow1 [] [("t", [rowK1]), ("u", [rowK2])]).invoked = ["t", "u"]
  ∧ (runMigrateLoop failsRow1 [] [("t", [rowK1]), ("u", [rowK2])]).aborted = false :=
  migrateLoop_all_invoked failsRow1 [("t", [rowK1]), ("u", [rowK2])] [] (by decide)

/-- Tables fed to the loop in the C4 counterexample: table a fetches
empty while its stored snapshot is non-empty, table b is healthy. -/
def c4Tables : List (String × List Row) := [("a", []), ("b", [rowK1])]

/-- Stored snapshots for the C4 counterexample. -/
def c4States : States := [("a", [rowK1])]

/-- C4 (counterexample): the loop has no per-table catch — the throw
from migrating table a aborts the pass and table b is never migrated,
so a failure in one table is not confined to it. -/
theorem migrateLoop_abort_counterexample :
    (runMigrateLoop noFail c4States c4Tables).invoked = ["a"]
  ∧ (runMigrateLoop noFail c4States c4Tables).aborted = true
  ∧ ¬ ("b" ∈ (runMigrateLoop noFail c4States c4Tables).invoked) := by
  refine ⟨?_, ?_, ?_⟩ <;> decide

/- ---------------------------------------------------------------------
Delta of a snapshot against itself, and snapshot storage.
--------------------------------------------------------------------- -/

/-- The last element of a non-empty list whose elements all equal `r`. -/
lemma getLast?_of_all_eq (r : Row) :
    ∀ l : List Row, l ≠ [] → (∀ x ∈ l, x = r) → List.getLast? l = some r := by
  intro l
  induction l with
  | nil => exact fun h _ => absurd rfl h
  | cons a rest ih =>
      intro _ hall
      cases rest with
      | nil =>
          have : a = r := hall a (List.mem_cons_self _ _)
          rw [this]
          rfl
      | cons b m =>
          rw [List.getLast?_cons_cons]
          exact ih (List.cons_ne_nil b m)
            (fun x hx => hall x (List.mem_cons_of_mem _ hx))

/-- Under pairwise-distinct identity values, the previous-key map sends
the identity value of a member row back to that row. -/
lemma mapGet_self (s : List Row) (idCol : String) (r : Row) (hr : r ∈ s)
    (hinj : ∀ x ∈ s, ∀ y ∈ s, rowGet x idCol = rowGet y idCol → x = y) :
    mapGet s idCol (rowGet r idCol) = some r := by
  unfold mapGet
  have hrf : r ∈ List.filter
      (fun rec => decide (rowGet rec idCol = rowGet r idCol)) s :=
    List.mem_filter.mpr ⟨hr, by simp⟩
  apply getLast?_of_all_eq
  · intro hnil
    rw [hnil] at hrf
    cases hrf
  · intro x hx
    obtain ⟨hxs, hxp⟩ := List.mem_filter.mp hx
    exact hinj x hxs r hr (by simpa using hxp)

/-- Comparing a row against itself finds no changed column. -/
lemma hasChanged_self (r : Row) : hasChanged r r = false := by
  unfold hasChanged
  rw [List.any_eq_false]
  intro kv _
  simp

/-- C5: under the data-model invariants (every row keyed on the same
first column, pairwise-distinct identity values), a sync pass of a
snapshot against itself attempts no statement and counts no change, and
a `migrateTable` pass whose fetched snapshot equals the stored one
performs zero destination writes. -/
theorem syncDelta_self (tableName : String) (s : List Row)
    (hkeys : ∀ r ∈ s, firstKey r = firstKey (s.headD []))
    (hids : (List.map (fun r => rowGet r (firstKey (s.headD []))) s).Nodup) :
    (syncDataWithPostgres noFail tableName s s).attempted = []
  ∧ (syncDataWithPostgres noFail tableName s s).inserts = 0
  ∧ (syncDataWithPostgres noFail tableName s s).updates = 0
  ∧ (syncDataWithPostgres noFail tableName s s).deletions = 0
  ∧ (∀ (fails : SqlOp → Bool) (ps : States), statesGet ps tableName = s →
      (migrateTable fails ps tableName s).wrote = []) := by
  have hmig : ∀ (fails : SqlOp → Bool) (ps : States), statesGet ps tableName = s →
      (migrateTable fails ps tableName s).wrote = [] := by
    intro fails ps h
    unfold migrateTable
    rw [h]
    simp
  cases s with
  | nil => exact ⟨rfl, rfl, rfl, rfl, hmig⟩
  | cons c0 rest =>
      have hinj : ∀ x ∈ c0 :: rest, ∀ y ∈ c0 :: rest,
          rowGet x (firstKey c0) = rowGet y (firstKey c0) → x = y := by
        intro x hx y hy hxy
        have := List.inj_on_of_nodup_map (by simpa using hids) hx hy
        exact this hxy
      have hcl : ∀ r ∈ c0 :: rest,
          classifyRecord (c0 :: rest) (firstKey c0) r = RowClass.unchanged := by
        intro r hrm
        unfold classifyRecord
        rw [hkeys r hrm]
        simp only [List.headD_cons]
        rw [mapGet_self (c0 :: rest) (firstKey c0) r hrm hinj]
        simp [hasChanged_self r]
      have hfilter : List.filter
          (fun r => !(decide (classifyRecord (c0 :: rest) (firstKey c0) r
            = RowClass.unchanged))) (c0 :: rest) = [] := by
        rw [List.filter_eq_nil_iff]
        intro a ha
        simp [hcl a ha]
      have hdel : List.filter
          (fun rec =>
            !(List.contains
                (List.map (fun rec => rowGet rec (firstKey c0)) (c0 :: rest))
                (rowGet rec (firstKey c0))))
          (c0 :: rest) = [] := by
        rw [List.filter_eq_nil_iff]
        intro a ha
        have hmem : rowGet a (firstKey c0)
            ∈ List.map (fun rec => rowGet rec (firstKey c0)) (c0 :: rest) :=
          List.mem_map.mpr ⟨a, ha, rfl⟩
        have helem : List.elem (rowGet a (firstKey c0))
            (List.map (fun rec => rowGet rec (firstKey c0)) (c0 :: rest)) = true :=
          List.elem_iff.mpr hmem
        show ¬((!(List.elem (rowGet a (firstKey c0))
            (List.map (fun rec => rowGet rec (firstKey c0)) (c0 :: rest)))) = true)
        rw [helem]
        simp
      refine ⟨?_, ?_, ?_, ?_, hmig⟩ <;>
        simp only [syncDataWithPostgres, hdel, runDeletes_noFail, List.map_nil,
          List.length_nil, Bool.false_eq_true, if_false, processRecords_noFail,
          hfilter, List.map_nil, List.nil_append]
      · rw [List.countP_eq_zero]
        intro a ha
        simp [hcl a ha]
      · rw [List.countP_eq_zero]
        intro a ha
        simp [hcl a ha]

/-- C5 (witness): a concrete two-row snapshot synced against itself
yields no statements and no counted changes, and a repeated migration
pass writes nothing. -/
theorem syncDelta_self_witness :
    (syncDataWithPostgres noFail "t" [rowA1, rowC2] [rowA1, rowC2]).attempted = []
  ∧ (syncDataWithPostgres noFail "t" [rowA1, rowC2] [rowA1, rowC2]).inserts = 0
  ∧ (syncDataWithPostgres noFail "t" [rowA1, rowC2] [rowA1, rowC2]).updates = 0
  ∧ (syncDataWithPostgres noFail "t" [rowA1, rowC2] [rowA1, rowC2]).deletions = 0
  ∧ (migrateTable noFail [("t", [rowA1, rowC2])] "t" [rowA1, rowC2]).wrote = [] := by
  have h := syncDelta_self "t" [rowA1, rowC2] (by decide) (by decide)
  exact ⟨h.1, h.2.1, h.2.2.1, h.2.2.2.1,
    h.2.2.2.2 noFail [("t", [rowA1, rowC2])] (by decide)⟩

/-- Reading back the slot just written in the snapshot store. -/
lemma statesGet_statesSet (ps : States) (tableName : String) (v : List Row) :
    statesGet (statesSet ps tableName v) tableName = v := by
  simp [statesGet, statesSet]

/-- C6: whenever `migrateTable` completes without throwing — whether or
not changes were detected, and regardless of how many row queries
failed inside the sync pass — the freshly fetched snapshot is stored as
the previous state of the table. -/
theorem migrateTable_stores_snapshot (fails : SqlOp → Bool) (ps : States)
    (tableName : String) (currentRecords : List Row)
    (h : (migrateTable fails ps tableName currentRecords).err = false) :
    statesGet (migrateTable fails ps tableName currentRecords).states tableName
      = currentRecords := by
  by_cases hc :
      (!(decide (currentRecords.length = (statesGet ps tableName).length)) ||
        !(decide (stringifyRows currentRecords
            = stringifyRows (statesGet ps tableName)))) = true
  · cases currentRecords with
    | nil =>
        exfalso
        unfold migrateTable at h
        rw [if_pos hc] at h
        simp at h
    | cons c0 rest =>
        unfold migrateTable
        rw [if_pos hc]
        exact statesGet_statesSet ps tableName (c0 :: rest)
  · unfold migrateTable
    rw [if_neg hc]
    exact statesGet_statesSet ps tableName currentRecords

/-- C6 (witness): a concrete migration stores the fetched snapshot. -/
theorem migrateTable_stores_snapshot_witness :
    (migrateTable noFail [] "t" [rowA1]).err = false
  ∧ statesGet (migrateTable noFail [] "t" [rowA1]).states "t" = [rowA1] :=
  ⟨by decide, migrateTable_stores_snapshot noFail [] "t" [rowA1] (by decide)⟩

/-- C2 (witness): the classification read off a concrete pass — one
matched-and-changed row, one new row. -/
theorem syncRow_classification_witness :
    (SqlOp.upsert "t" rowC2 ∈
        (syncDataWithPostgres noFail "t" [rowA1] [rowB1, rowC2]).attempted
      ↔ classifyRecord [rowA1] (firstKey ([rowB1, rowC2].headD [])) rowC2
          ≠ RowClass.unchanged)
  ∧ (syncDataWithPostgres noFail "t" [rowA1] [rowB1, rowC2]).inserts
      = List.countP
          (fun r => decide (classifyRecord [rowA1]
              (firstKey ([rowB1, rowC2].headD [])) r = RowClass.ins))
          [rowB1, rowC2]
  ∧ (syncDataWithPostgres noFail "t" [rowA1] [rowB1, rowC2]).updates
      = List.countP
          (fun r => decide (classifyRecord [rowA1]
              (firstKey ([rowB1, rowC2].headD [])) r = RowClass.upd))
          [rowB1, rowC2] :=
  syncRow_classification [rowA1] [rowB1, rowC2] "t" rowC2 (by decide)
